import Mathlib

/-!
Verification development for the blades graph-execution engine.

Each section shallowly embeds one Go component:
* `GraphPkg` — the builder/compiler in `graph/graph.go` (error-latching
  builder, `validate`, breadth-first `ensureReachable`, `Compile`).
* Further sections (flow graphs, loops, branches, parallel units) follow.

Go values are modelled as plain Lean data: maps become association lists,
`error` results become `Option`/`Except`, goroutine completion order becomes
an explicit list parameter, and Go's zero values become `Option.none` or `""`
exactly where the source relies on them.
-/

namespace GraphPkg

/-- Classified structural errors produced by the graph-package builder and
compiler (`graph/graph.go`). Each constructor corresponds to one
`fmt.Errorf` site. -/
inductive GErr where
  | duplicateNode (name : String)
  | duplicateEdge (src dst : String)
  | entryAlreadySet (prev : String)
  | finishAlreadySet (prev : String)
  | entryNotSet
  | finishNotSet
  | startNotFound (name : String)
  | endNotFound (name : String)
  | edgeFromUnknown
  | edgeToUnknown
  | finishNotReachable (name : String)
deriving DecidableEq, Repr

/-- The builder state of `graph.Graph`. `nodes` models the
`map[string]Handler` as an association list keyed by node name (handlers have
the abstract type `H`); `edges` flattens `map[string][]conditionalEdge` into
(from, to) pairs in insertion order (edge conditions are never consulted by
`validate`, `ensureReachable` or `Compile`, so they are not modelled);
`entryPoint`/`finishPoint` use Go's `""` zero value for "unset"; `err` is the
latched builder error. The `parallel`, `maxSteps` and `middlewares` fields of
the Go struct are not read by any modelled operation and are omitted. -/
structure Graph (H : Type) where
  nodes : List (String × H)
  edges : List (String × String)
  entryPoint : String
  finishPoint : String
  err : Option GErr

/-- Model of `NewGraph` (options left at defaults; the defaulted fields are
not part of the model). -/
def newGraph (H : Type) : Graph H :=
  { nodes := [], edges := [], entryPoint := "", finishPoint := "", err := none }

/-- Model of `Graph.AddNode`: no-op once an error is latched; latches a
duplicate-node error when the name is taken; otherwise registers. -/
def addNode (g : Graph H) (name : String) (handler : H) : Graph H :=
  if g.err.isSome then g
  else if (g.nodes.lookup name).isSome then
    { g with err := some (.duplicateNode name) }
  else { g with nodes := g.nodes ++ [(name, handler)] }

/-- Model of `Graph.AddEdge`: no-op once an error is latched; latches a
duplicate-edge error when the same (from, to) pair exists; otherwise appends
the edge. -/
def addEdge (g : Graph H) (src dst : String) : Graph H :=
  if g.err.isSome then g
  else if g.edges.any (fun e => e.1 == src && e.2 == dst) then
    { g with err := some (.duplicateEdge src dst) }
  else { g with edges := g.edges ++ [(src, dst)] }

/-- Model of `Graph.SetEntryPoint`. -/
def setEntryPoint (g : Graph H) (start : String) : Graph H :=
  if g.err.isSome then g
  else if g.entryPoint ≠ "" then { g with err := some (.entryAlreadySet g.entryPoint) }
  else { g with entryPoint := start }

/-- Model of `Graph.SetFinishPoint`. -/
def setFinishPoint (g : Graph H) (stop : String) : Graph H :=
  if g.err.isSome then g
  else if g.finishPoint ≠ "" then { g with err := some (.finishAlreadySet g.finishPoint) }
  else { g with finishPoint := stop }

/-- Model of `Graph.validate`: the latched error first, then the entry/finish
presence and registration checks, then the edge-endpoint checks. (Go iterates
the edge map in unspecified order, so with several violations the *value* of
the returned error is nondeterministic in Go; success versus failure is not,
and that is all the theorems below use.) -/
def validate (g : Graph H) : Option GErr :=
  match g.err with
  | some e => some e
  | none =>
    if g.entryPoint = "" then some .entryNotSet
    else if g.finishPoint = "" then some .finishNotSet
    else if (g.nodes.lookup g.entryPoint).isNone then some (.startNotFound g.entryPoint)
    else if (g.nodes.lookup g.finishPoint).isNone then some (.endNotFound g.finishPoint)
    else if g.edges.any (fun e => (g.nodes.lookup e.1).isNone) then some .edgeFromUnknown
    else if g.edges.any (fun e => (g.nodes.lookup e.2).isNone) then some .edgeToUnknown
    else none

/-- Successors of a node along the recorded edges, in insertion order —
exactly what `ensureReachable` pushes onto its queue. -/
def succs (g : Graph H) (n : String) : List String :=
  (g.edges.filter (fun e => e.1 == n)).map (·.2)

/-- All strings that can ever sit in `ensureReachable`'s queue: the entry
point plus every edge target. Used only as a termination measure. -/
def candidates (g : Graph H) : List String :=
  g.entryPoint :: g.edges.map (·.2)

theorem filter_cons_pos {α : Type} (p : α → Bool) (a : α) (l : List α) (h : p a = true) :
    (a :: l).filter p = a :: l.filter p := by
  simp [List.filter_cons, h]

theorem filter_cons_neg {α : Type} (p : α → Bool) (a : α) (l : List α) (h : p a = false) :
    (a :: l).filter p = l.filter p := by
  simp [List.filter_cons, h]

theorem length_filter_lt_of_strong {α : Type} (p q : α → Bool) :
    ∀ (l : List α) (a : α), (∀ x, p x = true → q x = true) → a ∈ l →
      q a = true → p a = false →
      (l.filter p).length < (l.filter q).length := by
  intro l
  induction l with
  | nil => intro a _ ha; simp at ha
  | cons b t ih =>
    intro a himp ha hqa hpa
    by_cases hba : b = a
    · subst hba
      rw [filter_cons_neg _ _ _ hpa, filter_cons_pos _ _ _ hqa]
      have hmono : (t.filter p).length ≤ (t.filter q).length :=
        (List.monotone_filter_right t himp).length_le
      simp only [List.length_cons]
      omega
    · have hmem : a ∈ t := by
        rcases List.mem_cons.mp ha with h | h
        · exact absurd h.symm hba
        · exact h
      have hlt := ih a himp hmem hqa hpa
      cases hpb : p b with
      | true =>
        rw [filter_cons_pos _ _ _ hpb, filter_cons_pos _ _ _ (himp b hpb)]
        simp only [List.length_cons]
        omega
      | false =>
        rw [filter_cons_neg _ _ _ hpb]
        cases hqb : q b with
        | true =>
          rw [filter_cons_pos _ _ _ hqb]
          simp only [List.length_cons]
          omega
        | false =>
          rw [filter_cons_neg _ _ _ hqb]
          omega

theorem length_filter_exclude_cons_lt (l : List String) (a : String) (vis : List String)
    (ha : a ∈ l) (hv : a ∉ vis) :
    (l.filter (fun x => decide (x ∉ a :: vis))).length <
      (l.filter (fun x => decide (x ∉ vis))).length := by
  apply length_filter_lt_of_strong _ _ l a _ ha
  · simp [hv]
  · simp
  · intro x hx
    simp only [decide_eq_true_eq] at hx ⊢
    exact fun hmem => hx (List.mem_cons_of_mem _ hmem)

theorem filter_exclude_cons_of_not_mem (l : List String) (a : String) (vis : List String)
    (ha : a ∉ l) :
    l.filter (fun x => decide (x ∉ a :: vis)) = l.filter (fun x => decide (x ∉ vis)) := by
  apply List.filter_congr
  intro x hx
  have hxa : x ≠ a := fun h => ha (h ▸ hx)
  simp [List.mem_cons, hxa]

/-- Model of the queue loop inside `Graph.ensureReachable`: pop a node, skip
it if already visited, succeed if it is the finish point, otherwise mark it
visited and push its successors. The final `if` branch (node not a possible
queue member) is unreachable in any real invocation — the initial queue holds
the entry point and only edge targets are ever pushed — and exists solely so
the recursion has an unconditional termination measure; on that dead branch it
behaves like a node with no successors. -/
def bfs (g : Graph H) (queue visited : List String) : Bool :=
  match queue with
  | [] => false
  | node :: rest =>
    if node ∈ visited then bfs g rest visited
    else if node = g.finishPoint then true
    else if hc : node ∈ candidates g then bfs g (rest ++ succs g node) (node :: visited)
    else bfs g rest (node :: visited)
termination_by
  (((candidates g).filter (fun x => decide (x ∉ visited))).length, queue.length)
decreasing_by
  · exact Prod.Lex.right _ (by simp)
  · exact Prod.Lex.left _ _
      (length_filter_exclude_cons_lt _ _ _ hc (by assumption))
  · rw [filter_exclude_cons_of_not_mem _ _ _ hc]
    exact Prod.Lex.right _ (by simp)

/-- Model of `Graph.ensureReachable`. -/
def ensureReachable (g : Graph H) : Bool :=
  if g.entryPoint = g.finishPoint then true
  else bfs g [g.entryPoint] []

/-- Model of `Graph.Compile`: `validate`, then `ensureReachable`; on success
the executor is `NewExecutor(g)` (modelled by `()`), on failure the classified
error and no executor. -/
def compile (g : Graph H) : Except GErr Unit :=
  match validate g with
  | some e => .error e
  | none => if ensureReachable g then .ok () else .error (.finishNotReachable g.finishPoint)

/-- One default edge, as recorded by the builder. -/
def EdgeRel (g : Graph H) (a b : String) : Prop := (a, b) ∈ g.edges

/-- Semantic reachability along default edges (any number of steps). -/
def Reach (g : Graph H) (a b : String) : Prop := Relation.ReflTransGen (EdgeRel g) a b

theorem mem_succs_iff (g : Graph H) (v t : String) : t ∈ succs g v ↔ (v, t) ∈ g.edges := by
  constructor
  · intro h
    rcases List.mem_map.mp h with ⟨e, he, rfl⟩
    rcases List.mem_filter.mp he with ⟨hmem, hfst⟩
    have : e.1 = v := by simpa using hfst
    rcases e with ⟨e1, e2⟩
    simp only at this
    subst this
    exact hmem
  · intro h
    apply List.mem_map.mpr
    refine ⟨(v, t), List.mem_filter.mpr ⟨h, by simp⟩, rfl⟩

theorem succs_subset_candidates (g : Graph H) (v t : String) (h : t ∈ succs g v) :
    t ∈ candidates g := by
  have := mem_succs_iff g v t |>.mp h
  exact List.mem_cons_of_mem _ (List.mem_map.mpr ⟨(v, t), this, rfl⟩)

theorem bfs_nil (g : Graph H) (visited : List String) : bfs g [] visited = false := by
  simp [bfs]

theorem bfs_cons (g : Graph H) (node : String) (rest visited : List String) :
    bfs g (node :: rest) visited =
      if node ∈ visited then bfs g rest visited
      else if node = g.finishPoint then true
      else if node ∈ candidates g then bfs g (rest ++ succs g node) (node :: visited)
      else bfs g rest (node :: visited) := by
  rw [bfs]
  simp [dite_eq_ite]

/-- A set of names closed under the edge relation contains everything
reachable from its members. -/
theorem reach_mem_of_closed (g : Graph H) (S : List String)
    (hcl : ∀ v ∈ S, ∀ t, EdgeRel g v t → t ∈ S) :
    ∀ s ∈ S, ∀ x, Reach g s x → x ∈ S := by
  intro s hs x hr
  induction hr with
  | refl => exact hs
  | tail _ hbc ih => exact hcl _ ih _ hbc

/-- Soundness of the BFS: if it answers true, the finish point really is
reachable from a common origin of everything in the queue. -/
theorem bfs_sound (g : Graph H) (a : String) :
    ∀ (queue visited : List String), (∀ x ∈ queue, Reach g a x) →
      bfs g queue visited = true → Reach g a g.finishPoint := by
  intro queue visited
  induction queue, visited using bfs.induct g with
  | case1 visited =>
    intro _ h
    rw [bfs_nil] at h
    exact absurd h (by simp)
  | case2 visited node rest hmem ih =>
    intro hq h
    rw [bfs_cons, if_pos hmem] at h
    exact ih (fun x hx => hq x (List.mem_cons_of_mem _ hx)) h
  | case3 visited rest hnv =>
    intro hq _
    exact hq g.finishPoint (List.mem_cons_self _ _)
  | case4 visited node rest hnv hnf hc ih =>
    intro hq h
    rw [bfs_cons, if_neg hnv, if_neg hnf, if_pos hc] at h
    apply ih _ h
    intro x hx
    rcases List.mem_append.mp hx with hx | hx
    · exact hq x (List.mem_cons_of_mem _ hx)
    · exact Relation.ReflTransGen.tail (hq node (List.mem_cons_self _ _))
        ((mem_succs_iff g node x).mp hx)
  | case5 visited node rest hnv hnf hc ih =>
    intro hq h
    rw [bfs_cons, if_neg hnv, if_neg hnf, if_neg hc] at h
    exact ih (fun x hx => hq x (List.mem_cons_of_mem _ hx)) h

/-- Completeness of the BFS: if it answers false, nothing reachable from the
queue or the visited set is the finish point. -/
theorem bfs_complete (g : Graph H) :
    ∀ (queue visited : List String),
      (∀ x ∈ queue, x ∈ candidates g) →
      (∀ v ∈ visited, ∀ s ∈ succs g v, s ∈ visited ∨ s ∈ queue) →
      g.finishPoint ∉ visited →
      bfs g queue visited = false →
      ∀ s, (s ∈ queue ∨ s ∈ visited) → ∀ x, Reach g s x → x ≠ g.finishPoint := by
  intro queue visited
  induction queue, visited using bfs.induct g with
  | case1 visited =>
    intro _ hclosed hfin _ s hs x hr hxf
    have hsv : s ∈ visited := by
      rcases hs with hs | hs
      · simp at hs
      · exact hs
    have hxv : x ∈ visited := by
      apply reach_mem_of_closed g visited _ s hsv x hr
      intro v hv t ht
      rcases hclosed v hv t ((mem_succs_iff g v t).mpr ht) with h | h
      · exact h
      · simp at h
    exact hfin (hxf ▸ hxv)
  | case2 visited node rest hmem ih =>
    intro hcand hclosed hfin hrun s hs x hr
    rw [bfs_cons, if_pos hmem] at hrun
    apply ih (fun x hx => hcand x (List.mem_cons_of_mem _ hx)) _ hfin hrun s _ x hr
    · intro v hv t ht
      rcases hclosed v hv t ht with h | h
      · exact Or.inl h
      · rcases List.mem_cons.mp h with h | h
        · exact Or.inl (h ▸ hmem)
        · exact Or.inr h
    · rcases hs with hs | hs
      · rcases List.mem_cons.mp hs with hs | hs
        · exact Or.inr (hs ▸ hmem)
        · exact Or.inl hs
      · exact Or.inr hs
  | case3 visited rest hnv =>
    intro _ _ _ hrun
    rw [bfs_cons, if_neg hnv, if_pos rfl] at hrun
    exact absurd hrun (by simp)
  | case4 visited node rest hnv hnf hc ih =>
    intro hcand hclosed hfin hrun s hs x hr
    rw [bfs_cons, if_neg hnv, if_neg hnf, if_pos hc] at hrun
    have hcand2 : ∀ y ∈ rest ++ succs g node, y ∈ candidates g := by
      intro y hy
      rcases List.mem_append.mp hy with hy | hy
      · exact hcand y (List.mem_cons_of_mem _ hy)
      · exact succs_subset_candidates g node y hy
    have hclosed2 : ∀ v ∈ node :: visited, ∀ t ∈ succs g v,
        t ∈ node :: visited ∨ t ∈ rest ++ succs g node := by
      intro v hv t ht
      rcases List.mem_cons.mp hv with hv | hv
      · exact Or.inr (List.mem_append.mpr (Or.inr (hv ▸ ht)))
      · rcases hclosed v hv t ht with h | h
        · exact Or.inl (List.mem_cons_of_mem _ h)
        · rcases List.mem_cons.mp h with h | h
          · exact Or.inl (h ▸ List.mem_cons_self _ _)
          · exact Or.inr (List.mem_append.mpr (Or.inl h))
    have hfin2 : g.finishPoint ∉ node :: visited := by
      intro h
      rcases List.mem_cons.mp h with h | h
      · exact hnf h.symm
      · exact hfin h
    apply ih hcand2 hclosed2 hfin2 hrun s _ x hr
    rcases hs with hs | hs
    · rcases List.mem_cons.mp hs with hs | hs
      · exact Or.inr (hs ▸ List.mem_cons_self _ _)
      · exact Or.inl (List.mem_append.mpr (Or.inl hs))
    · exact Or.inr (List.mem_cons_of_mem _ hs)
  | case5 visited node rest hnv hnf hc ih =>
    intro hcand _ _ _
    exact absurd (hcand node (List.mem_cons_self _ _)) hc

/-- The breadth-first search in `ensureReachable` answers true exactly when
the finish point is reachable from the entry point along recorded edges. -/
theorem ensureReachable_iff (g : Graph H) :
    ensureReachable g = true ↔ Reach g g.entryPoint g.finishPoint := by
  unfold ensureReachable
  by_cases h : g.entryPoint = g.finishPoint
  · rw [if_pos h]
    simp only [true_iff]
    exact h ▸ Relation.ReflTransGen.refl
  · rw [if_neg h]
    constructor
    · intro hb
      apply bfs_sound g g.entryPoint [g.entryPoint] [] _ hb
      intro x hx
      have : x = g.entryPoint := by simpa using hx
      exact this ▸ Relation.ReflTransGen.refl
    · intro hr
      by_contra hb
      have hb2 : bfs g [g.entryPoint] [] = false := by
        cases hE : bfs g [g.entryPoint] [] with
        | true => exact absurd hE hb
        | false => rfl
      have := bfs_complete g [g.entryPoint] []
        (by intro x hx; have : x = g.entryPoint := by simpa using hx
            exact this ▸ List.mem_cons_self _ _)
        (by simp) (by simp) hb2 g.entryPoint (Or.inl (List.mem_cons_self _ _))
        g.finishPoint hr
      exact this rfl

theorem isSome_of_not_isNone {α : Type} {o : Option α} (h : ¬ o.isNone = true) :
    o.isSome = true := by
  cases o with
  | none => exact absurd rfl h
  | some v => rfl

theorem not_isNone_of_isSome {α : Type} {o : Option α} (h : o.isSome = true) :
    ¬ o.isNone = true := by
  cases o with
  | none => cases h
  | some v => simp

/-- Characterization of `validate` success by the individual builder checks. -/
theorem validate_eq_none_iff (g : Graph H) :
    validate g = none ↔
      g.err = none ∧ g.entryPoint ≠ "" ∧ g.finishPoint ≠ "" ∧
      (g.nodes.lookup g.entryPoint).isSome = true ∧
      (g.nodes.lookup g.finishPoint).isSome = true ∧
      (∀ e ∈ g.edges, (g.nodes.lookup e.1).isSome = true ∧
        (g.nodes.lookup e.2).isSome = true) := by
  unfold validate
  cases herr : g.err with
  | some e =>
    constructor
    · intro h; cases h
    · rintro ⟨h, _⟩; cases h
  | none =>
    constructor
    · intro h
      by_cases h1 : g.entryPoint = ""
      · rw [if_pos h1] at h; cases h
      rw [if_neg h1] at h
      by_cases h2 : g.finishPoint = ""
      · rw [if_pos h2] at h; cases h
      rw [if_neg h2] at h
      by_cases h3 : (g.nodes.lookup g.entryPoint).isNone = true
      · rw [if_pos h3] at h; cases h
      rw [if_neg h3] at h
      by_cases h4 : (g.nodes.lookup g.finishPoint).isNone = true
      · rw [if_pos h4] at h; cases h
      rw [if_neg h4] at h
      by_cases h5 : g.edges.any (fun e => (g.nodes.lookup e.1).isNone) = true
      · rw [if_pos h5] at h; cases h
      rw [if_neg h5] at h
      by_cases h6 : g.edges.any (fun e => (g.nodes.lookup e.2).isNone) = true
      · rw [if_pos h6] at h; cases h
      refine ⟨rfl, h1, h2, isSome_of_not_isNone h3, isSome_of_not_isNone h4, ?_⟩
      intro e he
      constructor
      · exact isSome_of_not_isNone fun hnone => h5 (List.any_eq_true.mpr ⟨e, he, hnone⟩)
      · exact isSome_of_not_isNone fun hnone => h6 (List.any_eq_true.mpr ⟨e, he, hnone⟩)
    · rintro ⟨_, h1, h2, h3, h4, hedges⟩
      rw [if_neg h1, if_neg h2, if_neg (not_isNone_of_isSome h3),
        if_neg (not_isNone_of_isSome h4)]
      rw [if_neg, if_neg]
      · intro hany
        rcases List.any_eq_true.mp hany with ⟨e, he, hnone⟩
        exact not_isNone_of_isSome (hedges e he).2 hnone
      · intro hany
        rcases List.any_eq_true.mp hany with ⟨e, he, hnone⟩
        exact not_isNone_of_isSome (hedges e he).1 hnone

/-- Full characterization of `Compile` success in the graph package: the
latched builder error is absent, entry and finish are set and registered, all
edge endpoints are registered, and the finish point is reachable from the
entry point. Acyclicity is nowhere required. -/
theorem compile_ok_iff (g : Graph H) :
    (∃ u, compile g = .ok u) ↔
      g.err = none ∧ g.entryPoint ≠ "" ∧ g.finishPoint ≠ "" ∧
      (g.nodes.lookup g.entryPoint).isSome = true ∧
      (g.nodes.lookup g.finishPoint).isSome = true ∧
      (∀ e ∈ g.edges, (g.nodes.lookup e.1).isSome = true ∧
        (g.nodes.lookup e.2).isSome = true) ∧
      Reach g g.entryPoint g.finishPoint := by
  unfold compile
  cases hv : validate g with
  | some e =>
    constructor
    · rintro ⟨u, hu⟩
      exact absurd hu (by simp)
    · rintro ⟨h1, h2, h3, h4, h5, h6, _⟩
      have hnone : validate g = none :=
        (validate_eq_none_iff g).mpr ⟨h1, h2, h3, h4, h5, h6⟩
      rw [hv] at hnone
      exact absurd hnone (by simp)
  | none =>
    have hval := (validate_eq_none_iff g).mp hv
    by_cases hreach : ensureReachable g = true
    · rw [if_pos hreach]
      constructor
      · intro _
        exact ⟨hval.1, hval.2.1, hval.2.2.1, hval.2.2.2.1, hval.2.2.2.2.1,
          hval.2.2.2.2.2, (ensureReachable_iff g).mp hreach⟩
      · intro _
        exact ⟨(), rfl⟩
    · rw [if_neg hreach]
      constructor
      · rintro ⟨u, hu⟩
        cases hu
      · rintro ⟨_, _, _, _, _, _, hr⟩
        exact absurd ((ensureReachable_iff g).mpr hr) hreach

end GraphPkg

namespace FlowGen

/-- The generic builder `flow.Graph[I, O, Option]` (second half of
`flow/graph.go`). Runners (`R`) and edge state handlers (`E`) are abstract
here; the `nodes` Go map is an association list with map-assignment
semantics. -/
structure Graph (R E : Type) where
  nodes : List (String × R)
  edges : List (String × List (String × E))
  starts : List String
  ends : List String

/-- Model of the generic `NewGraph`. -/
def newGraph (R E : Type) : Graph R E :=
  { nodes := [], edges := [], starts := [], ends := [] }

/-- Go map assignment `m[k] = v` on an association list: replaces the
binding if the key exists, otherwise appends it. -/
def assocSet {κ α : Type} [DecidableEq κ] (l : List (κ × α)) (k : κ) (v : α) :
    List (κ × α) :=
  match l with
  | [] => [(k, v)]
  | (k0, v0) :: rest => if k0 = k then (k, v) :: rest else (k0, v0) :: assocSet rest k v

/-- Model of the generic `Graph.AddNode`: `g.nodes[name] = runner`, a plain
map assignment — no duplicate check and no error; an existing registration
under the same name is silently replaced. -/
def addNode {R E : Type} (g : Graph R E) (name : String) (runner : R) : Graph R E :=
  { g with nodes := assocSet g.nodes name runner }

theorem lookup_assocSet {κ α : Type} [DecidableEq κ] [BEq κ] [LawfulBEq κ]
    (l : List (κ × α)) (k : κ) (v : α) :
    (assocSet l k v).lookup k = some v := by
  induction l with
  | nil => simp [assocSet, List.lookup]
  | cons hd rest ih =>
    obtain ⟨k0, v0⟩ := hd
    by_cases hk : k0 = k
    · subst hk
      simp [assocSet, List.lookup]
    · rw [assocSet.eq_def]
      simp only [if_neg hk]
      rw [List.lookup]
      have hbeq : (k == k0) = false := by
        simp only [beq_eq_false_iff_ne, ne_eq]
        exact fun h => hk h.symm
      rw [hbeq]
      exact ih

end FlowGen

namespace FlowPtr

/-- A branch record attached to a node in the pointer-keyed `flow.Graph`
(first half of `flow/graph.go`): `fnDefined` models `branch.branch != nil`
(the selector function itself is never called by `Compile`), and `table`
models the label→runner map; a `none` runner models a nil entry. -/
structure BranchSpec where
  fnDefined : Bool
  table : List (String × Option Nat)

/-- The pointer-keyed `flow.Graph`: runners are compared by pointer identity,
modelled as `Nat` ids. `edges` is the `map[Runner]Runner` of default
successors (a `none` target models a nil runner value); a `none` branch
models a nil `*graphBranch`. -/
structure Graph where
  nodes : List Nat
  edges : List (Nat × Option Nat)
  branches : List (Nat × Option BranchSpec)
  start : Option Nat

/-- Classified errors of the pointer-keyed `Compile` (one per `fmt.Errorf`
site; the label argument of the branch-target message is dropped). The extra
`fuelExhausted` value marks exhaustion of the explicit recursion budget given
to the cycle DFS; the budget passed by `compile` below strictly dominates the
real recursion depth, so Go never reaches this outcome. -/
inductive PErr where
  | startNotDefined
  | startNotRegistered
  | edgeFromNotRegistered
  | edgeToNotRegistered
  | branchFromNotRegistered
  | branchFnNotDefined
  | branchTargetNil
  | branchTargetNotRegistered
  | cycleDetected
  | fuelExhausted
deriving DecidableEq, Repr

/-- Model of the three-color DFS inside `Compile`: marks are 1 (visiting) or
2 (done) in an association list; a nil node returns immediately; hitting a
node marked 1 reports the cycle. The Go recursion is bounded by the number of
distinct markable nodes, so it is rendered with explicit fuel. -/
def dfs (g : Graph) (fuel : Nat) (marks : List (Nat × Nat)) (n : Option Nat) :
    Except PErr (List (Nat × Nat)) :=
  match fuel with
  | 0 => .error .fuelExhausted
  | fuel + 1 =>
    match n with
    | none => .ok marks
    | some n =>
      match marks.lookup n with
      | some 1 => .error .cycleDetected
      | some 2 => .ok marks
      | _ =>
        let marks1 := FlowGen.assocSet marks n 1
        match g.edges.lookup n with
        | some tgt =>
          match dfs g fuel marks1 tgt with
          | .error e => .error e
          | .ok m => .ok (FlowGen.assocSet m n 2)
        | none => .ok (FlowGen.assocSet marks1 n 2)

/-- Model of the pointer-keyed `Graph.Compile`: start checks, edge endpoint
checks, branch checks, then cycle detection over default edges from the
start. Go iterates its maps in unspecified order, so with several violations
the particular error is nondeterministic there; whether compilation succeeds
is not. -/
def compile (g : Graph) : Except PErr Unit :=
  match g.start with
  | none => .error .startNotDefined
  | some s =>
    if s ∉ g.nodes then .error .startNotRegistered
    else if g.edges.any (fun e => decide (e.1 ∉ g.nodes)) then
      .error .edgeFromNotRegistered
    else if g.edges.any (fun e =>
        match e.2 with | some t => decide (t ∉ g.nodes) | none => false) then
      .error .edgeToNotRegistered
    else if g.branches.any (fun b => decide (b.1 ∉ g.nodes)) then
      .error .branchFromNotRegistered
    else if g.branches.any (fun b =>
        match b.2 with | none => true | some sp => !sp.fnDefined) then
      .error .branchFnNotDefined
    else if g.branches.any (fun b =>
        match b.2 with
        | some sp => sp.table.any (fun t => t.2.isNone)
        | none => false) then
      .error .branchTargetNil
    else if g.branches.any (fun b =>
        match b.2 with
        | some sp => sp.table.any (fun t =>
            match t.2 with | some r => decide (r ∉ g.nodes) | none => false)
        | none => false) then
      .error .branchTargetNotRegistered
    else
      match dfs g (g.edges.length + 2) [] (some s) with
      | .error e => .error e
      | .ok _ => .ok ()

/-- Compile success in the pointer-keyed flow graph forces every structural
registration check to pass: the start is defined and registered, edge
endpoints are registered, and branch records are well-formed with registered
targets. (There is no end-reachability concept in this variant.) -/
theorem compile_ok_checks (g : Graph) (u : Unit) (h : compile g = .ok u) :
    (∃ s, g.start = some s ∧ s ∈ g.nodes) ∧
    (∀ e ∈ g.edges, e.1 ∈ g.nodes ∧ ∀ t, e.2 = some t → t ∈ g.nodes) ∧
    (∀ b ∈ g.branches, b.1 ∈ g.nodes ∧ ∃ sp, b.2 = some sp ∧ sp.fnDefined = true ∧
      ∀ t ∈ sp.table, ∃ r, t.2 = some r ∧ r ∈ g.nodes) := by
  unfold compile at h
  split at h
  next hst => cases h
  next s hst =>
    by_cases h1 : s ∉ g.nodes
    · rw [if_pos h1] at h; cases h
    rw [if_neg h1] at h
    by_cases h2 : g.edges.any (fun e => decide (e.1 ∉ g.nodes)) = true
    · rw [if_pos h2] at h; cases h
    rw [if_neg h2] at h
    by_cases h3 : g.edges.any (fun e =>
        match e.2 with | some t => decide (t ∉ g.nodes) | none => false) = true
    · rw [if_pos h3] at h; cases h
    rw [if_neg h3] at h
    by_cases h4 : g.branches.any (fun b => decide (b.1 ∉ g.nodes)) = true
    · rw [if_pos h4] at h; cases h
    rw [if_neg h4] at h
    by_cases h5 : g.branches.any (fun b =>
        match b.2 with | none => true | some sp => !sp.fnDefined) = true
    · rw [if_pos h5] at h; cases h
    rw [if_neg h5] at h
    by_cases h6 : g.branches.any (fun b =>
        match b.2 with
        | some sp => sp.table.any (fun t => t.2.isNone)
        | none => false) = true
    · rw [if_pos h6] at h; cases h
    rw [if_neg h6] at h
    by_cases h7 : g.branches.any (fun b =>
        match b.2 with
        | some sp => sp.table.any (fun t =>
            match t.2 with | some r => decide (r ∉ g.nodes) | none => false)
        | none => false) = true
    · rw [if_pos h7] at h; cases h
    rw [if_neg h7] at h
    simp only [List.any_eq_true, not_exists, not_and] at h2 h3 h4 h5 h6 h7
    refine ⟨⟨s, hst, by simpa using h1⟩, ?_, ?_⟩
    · intro e he
      constructor
      · have := h2 e he
        simpa using this
      · intro t ht
        have := h3 e he
        rw [ht] at this
        simpa using this
    · intro b hb
      constructor
      · have := h4 b hb
        simpa using this
      · cases hsp : b.2 with
        | none =>
          have := h5 b hb
          rw [hsp] at this
          simp at this
        | some sp =>
          refine ⟨sp, rfl, ?_, ?_⟩
          · have := h5 b hb
            rw [hsp] at this
            simpa using this
          · intro t ht
            cases htr : t.2 with
            | none =>
              have := h6 b hb
              rw [hsp] at this
              simp only [Bool.not_eq_true, List.any_eq_false] at this
              have := this t ht
              rw [htr] at this
              simp at this
            | some r =>
              refine ⟨r, rfl, ?_⟩
              have := h7 b hb
              rw [hsp] at this
              simp only [Bool.not_eq_true, List.any_eq_false] at this
              have := this t ht
              rw [htr] at this
              simpa using this

end FlowPtr

/-- Errors are modelled by their message strings. -/
abbrev Err := String

/-- A `blades.Message`, opaque to the engine. -/
abbrev Message := String

/-- A `blades.Generation`, reduced to its `Messages` field. -/
abbrev Gen := List Message

/-- A `blades.Prompt`, reduced to its message list; `NewPrompt(gen.Messages...)`
is then the identity on the list. -/
abbrev Prompt := List Message

namespace StrGraph

/-- The per-run traversal state of the string-keyed `flow.Graph`
(`GraphState` with `Current`, `Prompt`, `History`; the metadata map is never
read by the engine and is omitted). -/
structure State where
  current : String
  prompt : Prompt
  history : List Message

/-- A leaf runner: `Run(ctx, state.Prompt, opts...)` — it may read the
context-carried state, and the prompt it receives is the state's prompt. -/
abbrev Runner := State → Except Err Gen

/-- A branch condition: `Condition(ctx)`, reading the context-carried state. -/
abbrev Condition := State → Except Err String

/-- The string-keyed `flow.Graph`: named nodes, at most one default edge per
node (`map[string]string` with assignment semantics), and per-node branch
conditions. -/
structure Graph where
  nodes : List (String × Runner)
  edges : List (String × String)
  conditions : List (String × Condition)

/-- The sentinel start key. -/
def startKey : String := "START"

/-- The sentinel end key. -/
def endKey : String := "END"

/-- Model of `Graph.findStart`. -/
def findStart (g : Graph) : Except Err String :=
  if g.nodes.length = 0 then .error "graph has no nodes"
  else
    match g.edges.lookup startKey with
    | some start =>
      if (g.nodes.lookup start).isSome then .ok start
      else .error ("start node " ++ start ++ " not found")
    | none => .error "graph start not defined"

/-- Model of `Graph.nextNode`: a condition overrides the default edge;
`END` or the empty string terminate. -/
def nextNode (g : Graph) (st : State) (current : String) : Except Err (Option String) :=
  match g.conditions.lookup current with
  | some cond =>
    match cond st with
    | .error e => .error ("branch from " ++ current ++ ": " ++ e)
    | .ok nxt => if nxt = endKey ∨ nxt = "" then .ok none else .ok (some nxt)
  | none =>
    match g.edges.lookup current with
    | some nxt => if nxt = endKey then .ok none else .ok (some nxt)
    | none => .ok none

/-- Registered node names, deduplicated (a termination measure and the bound
the executed-node count is compared against). -/
def names (g : Graph) : List String := (g.nodes.map (·.1)).dedup

theorem mem_keys_of_lookup {α : Type} {l : List (String × α)} {k : String} {v : α}
    (h : l.lookup k = some v) : k ∈ l.map (·.1) := by
  induction l with
  | nil => cases h
  | cons hd t ih =>
    rw [List.lookup] at h
    cases hbe : (k == hd.1) with
    | true =>
      have := eq_of_beq hbe
      exact List.mem_cons.mpr (Or.inl this)
    | false =>
      rw [hbe] at h
      exact List.mem_cons_of_mem _ (ih h)

theorem mem_names_of_lookup {g : Graph} {k : String} {v : Runner}
    (h : g.nodes.lookup k = some v) : k ∈ names g :=
  List.mem_dedup.mpr (mem_keys_of_lookup h)

/-- Model of the traversal loop shared verbatim by `Graph.Run` and
`Graph.RunStream` (their loop bodies are textually identical apart from
`pipe.Send(gen)`, which the returned trace records): abort with a cycle error
on an already-visited node, otherwise mark it visited, run its runner,
compute the next node and recurse. The trace lists (node name, generation)
for every executed node, in execution order. -/
def runLoop (g : Graph) (st : State) (visited : List String) (current : String) :
    Except Err Gen × List (String × Gen) :=
  if hv : current ∈ visited then
    (.error ("cycle detected at node " ++ current ++ ": graph is not a DAG"), [])
  else
    match hr : g.nodes.lookup current with
    | none => (.error ("node " ++ current ++ " has no runner"), [])
    | some runner =>
      match runner { current := current, prompt := st.prompt,
                     history := st.history ++ st.prompt } with
      | .error e => (.error ("run node " ++ current ++ ": " ++ e), [])
      | .ok gen =>
        match nextNode g { current := current, prompt := gen,
                           history := st.history ++ st.prompt ++ gen } current with
        | .error e => (.error e, [(current, gen)])
        | .ok none => (.ok gen, [(current, gen)])
        | .ok (some nxt) =>
          if (g.nodes.lookup nxt).isNone then
            (.error ("next node " ++ nxt ++ " not found from " ++ current),
             [(current, gen)])
          else
            ((runLoop g { current := current, prompt := gen,
                          history := st.history ++ st.prompt ++ gen }
                (current :: visited) nxt).1,
             (current, gen) ::
               (runLoop g { current := current, prompt := gen,
                            history := st.history ++ st.prompt ++ gen }
                 (current :: visited) nxt).2)
termination_by ((names g).filter (fun x => decide (x ∉ visited))).length
decreasing_by
  all_goals
    exact GraphPkg.length_filter_exclude_cons_lt _ _ _ (mem_names_of_lookup hr) hv

/-- Model of `Graph.Run`: find the start, then walk; the first component is
Go's `(last, err)` pair, the second the executed-node trace. -/
def run (g : Graph) (prompt : Prompt) : Except Err Gen × List (String × Gen) :=
  match findStart g with
  | .error e => (.error e, [])
  | .ok start =>
    if (g.nodes.lookup start).isNone then
      (.error ("start node " ++ start ++ " not found"), [])
    else runLoop g { current := "", prompt := prompt, history := [] } [] start

/-- Model of `Graph.RunStream`: the producer goroutine runs the identical
loop, sending each node's generation; the consumer drains the sent items and
then the terminal error, if any. -/
def runStream (g : Graph) (prompt : Prompt) : List Gen × Option Err :=
  match findStart g with
  | .error e => ([], some e)
  | .ok start =>
    if (g.nodes.lookup start).isNone then
      ([], some ("start node " ++ start ++ " not found"))
    else
      let r := runLoop g { current := "", prompt := prompt, history := [] } [] start
      (r.2.map (·.2), match r.1 with | .error e => some e | .ok _ => none)

end StrGraph

namespace LoopNode

/-- The flow-context state `flow.State` (prompt and history; metadata unused
by the engine). -/
structure FState where
  prompt : Prompt
  history : List Message

/-- A wrapped leaf runner, reading the context-carried state; the prompt it
receives is the state's prompt. -/
abbrev Runner := FState → Except Err Gen

/-- The `ShouldContinue` predicate (`func(ctx) (bool, error)`). -/
abbrev ShouldContinue := FState → Except Err Bool

/-- The `Node` interface of a successor: its `Run` yields an optional final
generation (nil allowed) with the state after it, its `RunStream` the list of
items it sends with the state after it. -/
structure NodeIface where
  runFn : FState → Except Err (Option Gen × FState)
  runStreamFn : FState → Except Err (List Gen × FState)

/-- The `flow.Loop` node. -/
structure Loop where
  next : Option NodeIface
  runner : Runner
  shouldContinue : ShouldContinue
  maxIterations : Nat

/-- Model of `NewLoop` with no options: `maxIterations` defaults to 2. -/
def newLoop (shouldContinue : ShouldContinue) (runner : Runner) : Loop :=
  { next := none, runner := runner, shouldContinue := shouldContinue, maxIterations := 2 }

/-- Model of `LoopMaxIterations` applied by `NewLoop`'s options loop. -/
def withMaxIterations (l : Loop) (maxIter : Nat) : Loop :=
  { l with maxIterations := maxIter }

/-- Model of the iteration loop shared verbatim by `Loop.Run` and
`Loop.RunStream` (both check `iterations >= maxIterations`, then the
predicate, then run the wrapped node threading the output into the state
prompt; `RunStream` additionally sends each output — the trace records each
iteration's (input prompt, output)). `remaining` stands for
`maxIterations - iterations` of the upward-counting Go loop. -/
def loopGo (l : Loop) (remaining : Nat) (st : FState) (last : Option Gen)
    (trace : List (Prompt × Gen)) :
    Except Err (Option Gen × FState × List (Prompt × Gen)) :=
  match remaining with
  | 0 => .ok (last, st, trace)
  | remaining + 1 =>
    match l.shouldContinue st with
    | .error e => .error e
    | .ok false => .ok (last, st, trace)
    | .ok true =>
      match l.runner st with
      | .error e => .error e
      | .ok gen =>
        loopGo l remaining { prompt := gen, history := st.history ++ gen } (some gen)
          (trace ++ [(st.prompt, gen)])

/-- Model of `Loop.Run` (after `state.Prompt = prompt`): the bounded
iteration, then the successor's Run on the final state if one is linked,
else the last output — nil when zero iterations ran. -/
def run (l : Loop) (prompt : Prompt) (st : FState) :
    Except Err (Option Gen × FState × List (Prompt × Gen)) :=
  match loopGo l l.maxIterations { st with prompt := prompt } none [] with
  | .error e => .error e
  | .ok (last, st2, trace) =>
    match l.next with
    | some nxt =>
      match nxt.runFn st2 with
      | .error e => .error e
      | .ok (g, st3) => .ok (g, st3, trace)
    | none => .ok (last, st2, trace)

/-- Model of `Loop.RunStream`: the same bounded iteration sending each
output, then the successor's stream drained into the same pipe; an error
anywhere makes the call return (nil, err). The result lists the sent items. -/
def runStream (l : Loop) (prompt : Prompt) (st : FState) :
    Except Err (List Gen × FState) :=
  match loopGo l l.maxIterations { st with prompt := prompt } none [] with
  | .error e => .error e
  | .ok (_, st2, trace) =>
    match l.next with
    | some nxt =>
      match nxt.runStreamFn st2 with
      | .error e => .error e
      | .ok (items, st3) => .ok (trace.map (·.2) ++ items, st3)
    | none => .ok (trace.map (·.2), st2)

end LoopNode

namespace GNode

/-- The graph-context state (`GraphState` of `graph_state.go`: prompt and
history; metadata unused by the engine). -/
structure GState where
  prompt : Prompt
  history : List Message

/-- A leaf runner, reading the context-carried state. -/
abbrev Runner := GState → Except Err Gen

/-- The loop-continuation condition. -/
abbrev LoopCondition := GState → Except Err Bool

/-- The branch selector (`func(ctx) (string, error)`). -/
abbrev BranchCondition := GState → Except Err String

/-- The one-of payload of a `flow.GraphNode` (`graph_node.go`): a plain
runner, a loop (condition, runner, maxIterations — 2 unless overridden), or
a branch (selector plus label→runner map). -/
inductive Kind where
  | node (r : Runner)
  | loop (condition : LoopCondition) (r : Runner) (maxIterations : Nat)
  | branch (selector : BranchCondition) (table : List (String × Runner))

/-- A `flow.GraphNode` with its `next` link. -/
inductive GraphNode where
  | mk (kind : Kind) (next : Option GraphNode)

/-- Model of the `Run` loop case: bounded iteration exactly as in
`LoopNode.loopGo`; the trace records each output. -/
def loopRunGo (condition : LoopCondition) (r : Runner) (remaining : Nat) (st : GState)
    (last : Option Gen) (trace : List Gen) :
    Except Err (Option Gen × GState × List Gen) :=
  match remaining with
  | 0 => .ok (last, st, trace)
  | remaining + 1 =>
    match condition st with
    | .error e => .error e
    | .ok false => .ok (last, st, trace)
    | .ok true =>
      match r st with
      | .error e => .error e
      | .ok gen =>
        loopRunGo condition r remaining { prompt := gen, history := st.history ++ gen }
          (some gen) (trace ++ [gen])

/-- Model of the `RunStream` loop case, which — unlike `Run`'s — has **no**
`iterations >= maxIterations` check (`graph_node.go` lines 158–174): it loops
while the condition holds. Nontermination is rendered by fuel: `none` means
the loop was still running after `fuel` iterations. -/
def loopStreamGo (condition : LoopCondition) (r : Runner) (fuel : Nat) (st : GState)
    (emitted : List Gen) : Option (Except Err (List Gen × GState)) :=
  match fuel with
  | 0 => none
  | fuel + 1 =>
    match condition st with
    | .error e => some (.error e)
    | .ok false => some (.ok (emitted, st))
    | .ok true =>
      match r st with
      | .error e => some (.error e)
      | .ok gen =>
        loopStreamGo condition r fuel { prompt := gen, history := st.history ++ gen }
          (emitted ++ [gen])

/-- Model of `GraphNode.Run` (after `state.Prompt = prompt`): execute the
node's case, then recurse on `next` with the state prompt. The trace records
every executed leaf output in order. -/
def run : GraphNode → Prompt → GState → Except Err (Option Gen × GState × List Gen)
  | .mk kind next, prompt, st =>
    let st0 : GState := { st with prompt := prompt }
    let step : Except Err (Option Gen × GState × List Gen) :=
      match kind with
      | .node r =>
        match r st0 with
        | .error e => .error e
        | .ok gen => .ok (some gen, { prompt := gen, history := st0.history ++ gen }, [gen])
      | .loop condition r maxIterations =>
        loopRunGo condition r maxIterations st0 none []
      | .branch selector table =>
        match selector st0 with
        | .error e => .error e
        | .ok label =>
          match table.lookup label with
          | none => .error ("invalid branch choice: " ++ label)
          | some r =>
            match r st0 with
            | .error e => .error e
            | .ok gen =>
              .ok (some gen, { prompt := gen, history := st0.history ++ gen }, [gen])
    match step with
    | .error e => .error e
    | .ok (last, st1, trace) =>
      match next with
      | some n =>
        match run n st1.prompt st1 with
        | .error e => .error e
        | .ok (last2, st2, trace2) => .ok (last2, st2, trace ++ trace2)
      | none => .ok (last, st1, trace)

/-- Model of `GraphNode.RunStream` (after `state.Prompt = prompt`): mirror of
`run` except that the loop case is the unbounded `loopStreamGo`; the result
lists the items sent to the pipe. `none` propagates fuel exhaustion. -/
def runStream : GraphNode → Nat → Prompt → GState →
    Option (Except Err (List Gen × GState))
  | .mk kind next, fuel, prompt, st =>
    let st0 : GState := { st with prompt := prompt }
    let step : Option (Except Err (List Gen × GState)) :=
      match kind with
      | .node r =>
        match r st0 with
        | .error e => some (.error e)
        | .ok gen => some (.ok ([gen], { prompt := gen, history := st0.history ++ gen }))
      | .loop condition r _ =>
        loopStreamGo condition r fuel st0 []
      | .branch selector table =>
        match selector st0 with
        | .error e => some (.error e)
        | .ok label =>
          match table.lookup label with
          | none => some (.error ("invalid branch choice: " ++ label))
          | some r =>
            match r st0 with
            | .error e => some (.error e)
            | .ok gen =>
              some (.ok ([gen], { prompt := gen, history := st0.history ++ gen }))
    match step with
    | none => none
    | some (.error e) => some (.error e)
    | some (.ok (emitted, st1)) =>
      match next with
      | some n =>
        match runStream n fuel st1.prompt st1 with
        | none => none
        | some (.error e) => some (.error e)
        | some (.ok (emitted2, st2)) => some (.ok (emitted ++ emitted2, st2))
      | none => some (.ok (emitted, st1))

end GNode

namespace PNode

/-- The condition type of `part_021` (`func(ctx) (bool, error)`, shared by
branch and loop nodes there). -/
abbrev Condition := GNode.GState → Except Err Bool

/-- The one-of payload of the `part_021` `GraphNode`: a plain runner, a loop,
or a two-way branch `[a, b]` chosen by a boolean condition. -/
inductive Kind where
  | node (r : GNode.Runner)
  | loop (condition : Condition) (r : GNode.Runner) (maxIterations : Nat)
  | branch (condition : Condition) (a b : GNode.Runner)

/-- A `part_021` `GraphNode` with its `next` link. -/
inductive GraphNode where
  | mk (kind : Kind) (next : Option GraphNode)

/-- Model of the `part_021` `GraphNode.Run` (after `state.Prompt = prompt`).
The branch case reproduces the source faithfully: **both** arms of the
`if choose` select `n.branch[0]` (`part_021` lines 115–119), so the second
candidate is never run. The trace records executed leaf outputs. -/
def run : GraphNode → Prompt → GNode.GState →
    Except Err (Option Gen × GNode.GState × List Gen)
  | .mk kind next, prompt, st =>
    let st0 : GNode.GState := { st with prompt := prompt }
    let step : Except Err (Option Gen × GNode.GState × List Gen) :=
      match kind with
      | .node r =>
        match r st0 with
        | .error e => .error e
        | .ok gen => .ok (some gen, { prompt := gen, history := st0.history ++ gen }, [gen])
      | .loop condition r maxIterations =>
        GNode.loopRunGo condition r maxIterations st0 none []
      | .branch condition a b =>
        match condition st0 with
        | .error e => .error e
        | .ok choose =>
          let runner := if choose then a else a
          match runner st0 with
          | .error e => .error e
          | .ok gen =>
            .ok (some gen, { prompt := gen, history := st0.history ++ gen }, [gen])
    match step with
    | .error e => .error e
    | .ok (last, st1, trace) =>
      match next with
      | some n =>
        match run n st1.prompt st1 with
        | .error e => .error e
        | .ok (last2, st2, trace2) => .ok (last2, st2, trace ++ trace2)
      | none => .ok (last, st1, trace)

/-- Model of the `part_021` `GraphNode.RunStream`: the branch case selects
`a` when the condition is true and `b` otherwise (as documented), and the
loop case has no iteration bound (fuel renders nontermination as `none`). -/
def runStream : GraphNode → Nat → Prompt → GNode.GState →
    Option (Except Err (List Gen × GNode.GState))
  | .mk kind next, fuel, prompt, st =>
    let st0 : GNode.GState := { st with prompt := prompt }
    let step : Option (Except Err (List Gen × GNode.GState)) :=
      match kind with
      | .node r =>
        match r st0 with
        | .error e => some (.error e)
        | .ok gen => some (.ok ([gen], { prompt := gen, history := st0.history ++ gen }))
      | .loop condition r _ =>
        GNode.loopStreamGo condition r fuel st0 []
      | .branch condition a b =>
        match condition st0 with
        | .error e => some (.error e)
        | .ok choose =>
          let runner := if choose then a else b
          match runner st0 with
          | .error e => some (.error e)
          | .ok gen =>
            some (.ok ([gen], { prompt := gen, history := st0.history ++ gen }))
    match step with
    | none => none
    | some (.error e) => some (.error e)
    | some (.ok (emitted, st1)) =>
      match next with
      | some n =>
        match runStream n fuel st1.prompt st1 with
        | none => none
        | some (.error e) => some (.error e)
        | some (.ok (emitted2, st2)) => some (.ok (emitted ++ emitted2, st2))
      | none => some (.ok (emitted, st1))

end PNode

namespace FlowGen

/-- A typed runner of the generic flow package: `Run(ctx, input, opts...)`. -/
abbrev RunnerF (I O : Type) := I → Except Err O

/-- An edge's `StateHandler`, mapping the upstream output to the downstream
input. -/
abbrev HandlerF (I O : Type) := O → Except Err I

/-- Model of the inner edge loop of the generic `graphRunner.Run`: for each
edge recorded from the start node, transform the current output into the next
input and run the edge's target, chaining `output` across edges. A target
missing from the node map is a nil interface in Go and calling it panics;
that outcome is modelled as an error. The trace lists executed node names. -/
def runEdges {I O : Type} (g : Graph (RunnerF I O) (HandlerF I O))
    (edges : List (String × HandlerF I O)) (output : O) :
    Except Err O × List String :=
  match edges with
  | [] => (.ok output, [])
  | (toName, handler) :: rest =>
    match handler output with
    | .error e => (.error e, [])
    | .ok input2 =>
      match g.nodes.lookup toName with
      | none => (.error "panic: nil runner", [])
      | some node =>
        match node input2 with
        | .error e => (.error e, [])
        | .ok out2 =>
          let r := runEdges g rest out2
          (r.1, toName :: r.2)

/-- Model of the start loop of the generic `graphRunner.Run`: run each start
node on the original input, then walk its recorded edges. `output` starts at
Go's zero value (`none`). -/
def runStarts {I O : Type} (g : Graph (RunnerF I O) (HandlerF I O))
    (starts : List String) (input : I) (output : Option O) :
    Except Err (Option O) × List String :=
  match starts with
  | [] => (.ok output, [])
  | s :: rest =>
    match g.nodes.lookup s with
    | none => (.error "panic: nil runner", [])
    | some node =>
      match node input with
      | .error e => (.error e, [])
      | .ok out =>
        match runEdges g ((g.edges.lookup s).getD []) out with
        | (.error e, tr) => (.error e, s :: tr)
        | (.ok out2, tr) =>
          let r := runStarts g rest input (some out2)
          (r.1, s :: tr ++ r.2)

/-- Model of the generic `graphRunner.Run`. -/
def run {I O : Type} (g : Graph (RunnerF I O) (HandlerF I O)) (input : I) :
    Except Err (Option O) × List String :=
  runStarts g g.starts input none

/-- Model of the generic `graphRunner.RunStream`: the producer calls `Run`
once and sends its single final output; on error the pipe carries no item and
the terminal error. -/
def runStream {I O : Type} (g : Graph (RunnerF I O) (HandlerF I O)) (input : I) :
    List (Option O) × Option Err :=
  match (run g input).1 with
  | .error e => ([], some e)
  | .ok out => ([out], none)

end FlowGen

namespace BranchGen

/-- The generic `flow.Branch[I, O, Option]`: a selector and a name-keyed
runner map (built by `NewBranch` from each runner's `Name()`). -/
structure Branch (I O : Type) where
  name : String
  selector : I → Except Err String
  runners : List (String × (I → Except Err O))

/-- Model of the generic `Branch.Run`: consult the selector, look the label
up, run exactly that candidate; a missing label is an error naming it. The
second component lists the candidates that were executed. -/
def run {I O : Type} (b : Branch I O) (input : I) : Except Err O × List String :=
  match b.selector input with
  | .error e => (.error e, [])
  | .ok label =>
    match b.runners.lookup label with
    | none => (.error ("Branch: runner not found: " ++ label), [])
    | some r => (r input, [label])

/-- Model of the loop inside the generic `Branch.RunStream`'s producer: it
ranges over the **whole** runner map (Go map order is unspecified; list order
stands in for it — the facts proved below do not depend on the order), runs
every candidate and sends each output; the selector is never consulted. The
components are (sent items, terminal error, executed candidates). -/
def runStreamGo {I O : Type} (runners : List (String × (I → Except Err O)))
    (input : I) : List O × Option Err × List String :=
  match runners with
  | [] => ([], none, [])
  | (label, r) :: rest =>
    match r input with
    | .error e => ([], some e, [label])
    | .ok out =>
      let res := runStreamGo rest input
      (out :: res.1, res.2.1, label :: res.2.2)

/-- Model of the generic `Branch.RunStream`. -/
def runStream {I O : Type} (b : Branch I O) (input : I) :
    List O × Option Err × List String :=
  runStreamGo b.runners input

end BranchGen

namespace ParallelMerge

/-- A completion event of one sibling goroutine: its declaration index and
the result its `runner.Run(ctx, input, opts...)` produced. A run of the
parallel unit is modelled by the list of completion events in the order the
goroutines finished — concurrency makes that order arbitrary, and every
theorem below quantifies over it. -/
structure Completion (O : Type) where
  idx : Nat
  result : Except Err O

/-- The outcome of the merger-variant `Parallel.Run` (`graph.go` second
half): a goroutine panic (uncaught — the Go program crashes), a first error
from `eg.Wait()`, or the merged output. -/
inductive MergeOutcome (O : Type) where
  | panicked
  | failed (e : Err)
  | merged (res : Except Err O)

/-- Go slice write `outputs[idx] = v` with bounds checking: `none` is the
index-out-of-range panic. -/
def goWrite {α : Type} (l : List α) (i : Nat) (v : α) : Option (List α) :=
  if i < l.length then some (l.set i v) else none

/-- Model of the goroutine completions of the merger-variant `Parallel.Run`:
`outputs` was allocated by `make([]O, 0, len(runners))` — length **zero** —
and each successful sibling writes `outputs[idx]`; the first error is
retained by the errgroup. -/
def mergerLoop {O : Type} (outputs : List O) (firstErr : Option Err) :
    List (Completion O) → Option (List O × Option Err)
  | [] => some (outputs, firstErr)
  | c :: rest =>
    match c.result with
    | .ok v =>
      match goWrite outputs c.idx v with
      | none => none
      | some outputs2 => mergerLoop outputs2 firstErr rest
    | .error e =>
      mergerLoop outputs (match firstErr with | some e0 => some e0 | none => some e) rest

/-- Model of the merger-variant `Parallel.Run` over a given completion order:
allocate `outputs := make([]O, 0, n)` (the empty list), let the goroutines
complete, then `eg.Wait()` — first error if any, else `merger(ctx, outputs)`. -/
def mergerRun {O : Type} (completions : List (Completion O))
    (merger : List O → Except Err O) : MergeOutcome O :=
  match mergerLoop ([] : List O) none completions with
  | none => .panicked
  | some (_, some e) => .failed e
  | some (outputs, none) => .merged (merger outputs)

/-- The errgroup/shared-variable state of the plain `flow.Parallel.Run`
(`parallel.go`): the closure-shared `output` variable (zero value `none`),
the first error retained by `eg.Wait`, and whether the derived child context
has been cancelled. -/
structure EgState (O : Type) where
  shared : Option O
  firstErr : Option Err
  canceled : Bool

/-- One goroutine completion of the plain `Parallel.Run`: `output, err =
runner.Run(ctx, input, opts...)` assigns **both** shared variables — a
success overwrites `output`, a failure resets it to the zero value and makes
the errgroup record the first error and cancel the derived context. -/
def egStep {O : Type} (st : EgState O) (r : Except Err O) : EgState O :=
  match r with
  | .ok v => { st with shared := some v }
  | .error e =>
    { shared := none,
      firstErr := match st.firstErr with | some e0 => some e0 | none => some e,
      canceled := true }

/-- The errgroup state after all completions, from the initial state. -/
def egFold {O : Type} (completions : List (Except Err O)) : EgState O :=
  completions.foldl egStep { shared := none, firstErr := none, canceled := false }

/-- Model of the plain `flow.Parallel.Run` over a given completion order:
`eg.Wait()` returns the first error; the function returns the shared
`output` variable in either case. -/
def plainRun {O : Type} (completions : List (Except Err O)) : Option O × Option Err :=
  let st := egFold completions
  (st.shared, st.firstErr)

/-- The error of the earliest-completing failing sibling. -/
def firstError {O : Type} (cs : List (Except Err O)) : Option Err :=
  cs.findSome? (fun r => match r with | .error e => some e | .ok _ => none)

end ParallelMerge

namespace StrGraph

theorem runLoop_trace (g : Graph) :
    ∀ (st : State) (visited : List String) (current : String),
      (∀ x ∈ ((runLoop g st visited current).2.map (·.1)),
        x ∈ names g ∧ x ∉ visited) ∧
      ((runLoop g st visited current).2.map (·.1)).Nodup := by
  intro st visited current
  induction st, visited, current using runLoop.induct g with
  | case1 st visited current hv =>
    rw [runLoop, dif_pos hv]
    simp
  | case2 st visited current hv hlook =>
    rw [runLoop, dif_neg hv, hlook]
    simp
  | case3 st visited current hv runner hlook e herr =>
    rw [runLoop, dif_neg hv, hlook]
    simp only [herr]
    simp
  | case4 st visited current hv runner hlook gen hgen e hnext =>
    rw [runLoop, dif_neg hv, hlook]
    simp only [hgen, hnext]
    constructor
    · intro x hx
      simp only [List.map_cons, List.map_nil, List.mem_singleton] at hx
      subst hx
      exact ⟨mem_names_of_lookup hlook, hv⟩
    · simp
  | case5 st visited current hv runner hlook gen hgen hnext =>
    rw [runLoop, dif_neg hv, hlook]
    simp only [hgen, hnext]
    constructor
    · intro x hx
      simp only [List.map_cons, List.map_nil, List.mem_singleton] at hx
      subst hx
      exact ⟨mem_names_of_lookup hlook, hv⟩
    · simp
  | case6 st visited current hv runner hlook gen hgen nxt hnext hmiss =>
    rw [runLoop, dif_neg hv, hlook]
    simp only [hgen, hnext, if_pos hmiss]
    constructor
    · intro x hx
      simp only [List.map_cons, List.map_nil, List.mem_singleton] at hx
      subst hx
      exact ⟨mem_names_of_lookup hlook, hv⟩
    · simp
  | case7 st visited current hv runner hlook gen hgen nxt hnext hreg ih =>
    rw [runLoop, dif_neg hv, hlook]
    simp only [hgen, hnext, if_neg hreg]
    rcases ih with ⟨ihmem, ihnodup⟩
    constructor
    · intro x hx
      simp only [List.map_cons, List.mem_cons] at hx
      rcases hx with hx | hx
      · subst hx
        exact ⟨mem_names_of_lookup hlook, hv⟩
      · have := ihmem x hx
        exact ⟨this.1, fun hmem => this.2 (List.mem_cons_of_mem _ hmem)⟩
    · simp only [List.map_cons]
      apply List.Nodup.cons
      · intro hmem
        exact (ihmem _ hmem).2 (List.mem_cons_self _ _)
      · exact ihnodup

theorem nodup_subset_length {l l2 : List String} (hd : l.Nodup)
    (hsub : ∀ x ∈ l, x ∈ l2) : l.length ≤ l2.length := by
  calc l.length = l.toFinset.card := (List.toFinset_card_of_nodup hd).symm
  _ ≤ l2.toFinset.card := by
      apply Finset.card_le_card
      intro x hx
      exact List.mem_toFinset.mpr (hsub x (List.mem_toFinset.mp hx))
  _ ≤ l2.length := l2.toFinset_card_le

theorem run_trace_bound (g : Graph) (prompt : Prompt) :
    ((run g prompt).2.map (·.1)).Nodup ∧
    (∀ x ∈ (run g prompt).2.map (·.1), x ∈ names g) ∧
    (run g prompt).2.length ≤ (names g).length := by
  unfold run
  split
  · simp
  · rename_i start hf
    split
    · simp
    · have h := runLoop_trace g { current := "", prompt := prompt, history := [] } [] start
      refine ⟨h.2, fun x hx => (h.1 x hx).1, ?_⟩
      have hlen :
          ((runLoop g { current := "", prompt := prompt, history := [] } [] start).2.map
            (·.1)).length ≤ (names g).length :=
        nodup_subset_length h.2 (fun x hx => (h.1 x hx).1)
      simpa using hlen

end StrGraph

namespace LoopNode

/-- The expected (input prompt, output) pairs of `k` iterations of a loop
whose runner is the total function `rf`; each iteration's input is the
previous iteration's output. -/
def chainTrace (rf : FState → Gen) : Nat → FState → List (Prompt × Gen)
  | 0, _ => []
  | k + 1, st =>
    (st.prompt, rf st) :: chainTrace rf k { prompt := rf st, history := st.history ++ rf st }

/-- The state after `k` iterations. -/
def iterState (rf : FState → Gen) : Nat → FState → FState
  | 0, st => st
  | k + 1, st => iterState rf k { prompt := rf st, history := st.history ++ rf st }

/-- The last output of a trace, or the accumulator when it is empty. -/
def lastOr (tr : List (Prompt × Gen)) (last : Option Gen) : Option Gen :=
  match tr.getLast? with
  | some p => some p.2
  | none => last

theorem chainTrace_length (rf : FState → Gen) :
    ∀ (k : Nat) (st : FState), (chainTrace rf k st).length = k := by
  intro k
  induction k with
  | zero => intro st; rfl
  | succ n ih => intro st; rw [chainTrace]; rw [List.length_cons, ih]

theorem lastOr_cons (x : Prompt × Gen) (tr : List (Prompt × Gen)) (last : Option Gen) :
    lastOr (x :: tr) last = lastOr tr (some x.2) := by
  unfold lastOr
  cases tr with
  | nil => simp
  | cons y tr2 =>
    rw [List.getLast?_cons_cons]
    cases h : (y :: tr2).getLast? with
    | none =>
      rw [List.getLast?_eq_none_iff] at h
      exact absurd h (by simp)
    | some p => simp only [h]

/-- An always-true loop with a total runner executes exactly as many
iterations as there is budget, chaining states. -/
theorem loopGo_alwaysTrue (l : Loop) (rf : FState → Gen)
    (hcond : l.shouldContinue = fun _ => .ok true)
    (hrun : l.runner = fun s => .ok (rf s)) :
    ∀ (k : Nat) (st : FState) (last : Option Gen) (acc : List (Prompt × Gen)),
      loopGo l k st last acc =
        .ok (lastOr (chainTrace rf k st) last, iterState rf k st,
             acc ++ chainTrace rf k st) := by
  intro k
  induction k with
  | zero =>
    intro st last acc
    simp [loopGo, chainTrace, iterState, lastOr]
  | succ n ih =>
    intro st last acc
    simp only [loopGo, hcond, hrun]
    rw [ih]
    simp only [chainTrace, iterState, lastOr_cons]
    simp [List.append_assoc]

theorem chainTrace_chain (rf : FState → Gen) :
    ∀ (k : Nat) (st : FState),
      List.Chain' (fun a b : Prompt × Gen => b.1 = a.2) (chainTrace rf k st) := by
  intro k
  induction k with
  | zero => intro st; simp [chainTrace]
  | succ n ih =>
    intro st
    cases n with
    | zero => simp [chainTrace]
    | succ m =>
      have h2 := ih { prompt := rf st, history := st.history ++ rf st }
      rw [chainTrace]
      rw [chainTrace] at h2 ⊢
      exact List.chain'_cons.mpr ⟨rfl, h2⟩

end LoopNode

namespace GNode

/-- The expected outputs of `k` iterations of a loop node with total runner
`rg`. -/
def iterOutputs (rg : GState → Gen) : Nat → GState → List Gen
  | 0, _ => []
  | k + 1, st => rg st :: iterOutputs rg k { prompt := rg st, history := st.history ++ rg st }

/-- The state after `k` iterations of a loop node. -/
def iterStateG (rg : GState → Gen) : Nat → GState → GState
  | 0, st => st
  | k + 1, st => iterStateG rg k { prompt := rg st, history := st.history ++ rg st }

/-- The last output of a trace, or the accumulator when it is empty. -/
def lastOrG (tr : List Gen) (last : Option Gen) : Option Gen :=
  match tr.getLast? with
  | some gg => some gg
  | none => last

theorem iterOutputs_length (rg : GState → Gen) :
    ∀ (k : Nat) (st : GState), (iterOutputs rg k st).length = k := by
  intro k
  induction k with
  | zero => intro st; rfl
  | succ n ih => intro st; rw [iterOutputs]; rw [List.length_cons, ih]

theorem lastOrG_cons (x : Gen) (tr : List Gen) (last : Option Gen) :
    lastOrG (x :: tr) last = lastOrG tr (some x) := by
  unfold lastOrG
  cases tr with
  | nil => simp
  | cons y tr2 =>
    rw [List.getLast?_cons_cons]
    cases h : (y :: tr2).getLast? with
    | none =>
      rw [List.getLast?_eq_none_iff] at h
      exact absurd h (by simp)
    | some p => simp only [h]

/-- `Run`'s loop case with an always-true condition and a total runner runs
exactly its budget of iterations. -/
theorem loopRunGo_alwaysTrue (rg : GState → Gen) :
    ∀ (k : Nat) (st : GState) (last : Option Gen) (acc : List Gen),
      loopRunGo (fun _ => .ok true) (fun s => .ok (rg s)) k st last acc =
        .ok (lastOrG (iterOutputs rg k st) last, iterStateG rg k st,
             acc ++ iterOutputs rg k st) := by
  intro k
  induction k with
  | zero =>
    intro st last acc
    simp [loopRunGo, iterOutputs, iterStateG, lastOrG]
  | succ n ih =>
    intro st last acc
    simp only [loopRunGo]
    rw [ih]
    simp only [iterOutputs, iterStateG, lastOrG_cons]
    simp [List.append_assoc]

/-- `RunStream`'s loop case with an always-true condition never terminates:
whatever the fuel, it is still running. -/
theorem loopStreamGo_alwaysTrue (rg : GState → Gen) :
    ∀ (fuel : Nat) (st : GState) (acc : List Gen),
      loopStreamGo (fun _ => .ok true) (fun s => .ok (rg s)) fuel st acc = none := by
  intro fuel
  induction fuel with
  | zero => intro st acc; rfl
  | succ n ih =>
    intro st acc
    simp only [loopStreamGo]
    exact ih _ _

end GNode

namespace ParallelMerge

/-- Whether a completion result is a failure. -/
def isErr {O : Type} : Except Err O → Bool
  | .error _ => true
  | .ok _ => false

theorem foldl_egStep_firstErr {O : Type} :
    ∀ (cs : List (Except Err O)) (st : EgState O),
      (cs.foldl egStep st).firstErr =
        (match st.firstErr with | some e => some e | none => firstError cs) := by
  intro cs
  induction cs with
  | nil =>
    intro st
    cases hst : st.firstErr <;> simp [firstError, hst]
  | cons c rest ih =>
    intro st
    rw [List.foldl_cons, ih]
    cases c with
    | ok v =>
      cases hst : st.firstErr <;> simp [egStep, firstError, hst, List.findSome?_cons]
    | error e =>
      cases hst : st.firstErr <;> simp [egStep, firstError, hst, List.findSome?_cons]

theorem egFold_firstErr {O : Type} (cs : List (Except Err O)) :
    (egFold cs).firstErr = firstError cs := by
  unfold egFold
  rw [foldl_egStep_firstErr]

theorem foldl_egStep_canceled {O : Type} :
    ∀ (cs : List (Except Err O)) (st : EgState O),
      (cs.foldl egStep st).canceled = (st.canceled || cs.any isErr) := by
  intro cs
  induction cs with
  | nil => intro st; simp
  | cons c rest ih =>
    intro st
    rw [List.foldl_cons, ih]
    cases c with
    | ok v => simp [egStep, isErr]
    | error e => simp [egStep, isErr]

theorem egFold_canceled {O : Type} (cs : List (Except Err O)) :
    (egFold cs).canceled = cs.any isErr := by
  unfold egFold
  rw [foldl_egStep_canceled]
  simp

theorem foldl_egStep_shared_last {O : Type} :
    ∀ (cs : List (Except Err O)) (st : EgState O) (v : O),
      cs.getLast? = some (.ok v) → (cs.foldl egStep st).shared = some v := by
  intro cs
  induction cs with
  | nil => intro st v h; cases h
  | cons c rest ih =>
    intro st v h
    rw [List.foldl_cons]
    cases rest with
    | nil =>
      simp only [List.getLast?_singleton, Option.some.injEq] at h
      subst h
      simp [egStep]
    | cons c2 rest2 =>
      rw [List.getLast?_cons_cons] at h
      exact ih _ v h

end ParallelMerge

/-! ## Claim theorems -/

/-- Entry state for the C1 examples. -/
def c1CexState : GNode.GState := { prompt := [], history := [] }

/-- A `part_021` branch node whose condition is false: `a` answers `["A"]`,
`b` answers `["B"]`. -/
def c1Branch : PNode.GraphNode :=
  .mk (.branch (fun _ => .ok false) (fun _ => .ok ["A"]) (fun _ => .ok ["B"])) none

/-- A two-node generic flow graph A→B adding 1 then 2. -/
def c1G : FlowGen.Graph (FlowGen.RunnerF Nat Nat) (FlowGen.HandlerF Nat Nat) :=
  { nodes := [("A", fun n => .ok (n + 1)), ("B", fun n => .ok (n + 2))],
    edges := [("A", [("B", fun o => .ok o)])],
    starts := ["A"], ends := ["B"] }

/-- C1: RunStream must visit the same nodes as Run with one item per executed
node. It does not: on a `part_021` branch with a false condition, `Run`
executes candidate `a` (both arms of its `if choose` pick `branch[0]`) while
`RunStream` executes candidate `b`, so the visited nodes and payloads differ;
and the generic `graphRunner.RunStream` sends exactly one item (the final
output) although `Run` executed two nodes. -/
theorem c1_runStream_diverges_from_run :
    (PNode.run c1Branch [] c1CexState =
      .ok (some ["A"], { prompt := ["A"], history := ["A"] }, [["A"]])) ∧
    (PNode.runStream c1Branch 1 [] c1CexState =
      some (.ok ([["B"]], { prompt := ["B"], history := ["B"] }))) ∧
    ¬ ([["A"]] = ([["B"]] : List Gen)) ∧
    (FlowGen.run c1G 10 = (.ok (some 13), ["A", "B"])) ∧
    (FlowGen.runStream c1G 10 = ([some 13], none)) ∧
    (["A", "B"].length = 2 ∧ [some (13 : Nat)].length = 1) := by
  exact ⟨rfl, rfl, by decide, rfl, rfl, rfl, rfl⟩

/-- A graph-package graph whose default edges form the cycle A→B→A. -/
def gC2cex : GraphPkg.Graph Nat :=
  { nodes := [("A", 1), ("B", 2)], edges := [("A", "B"), ("B", "A")],
    entryPoint := "A", finishPoint := "B", err := none }

/-- A pointer-keyed flow graph with default edges 1→2→1 from start 1. -/
def pgCycle : FlowPtr.Graph :=
  { nodes := [1, 2], edges := [(1, some 2), (2, some 1)], branches := [], start := some 1 }

/-- C2 counterexample: the graph-package `Compile` accepts a graph whose
default edges form the cycle A→B→A (it checks reachability but never
acyclicity), refuting "Compile succeeds only if the default-edge subgraph is
acyclic". -/
theorem c2_cycle_compiles :
    GraphPkg.compile gC2cex = .ok () ∧
    Relation.TransGen (GraphPkg.EdgeRel gC2cex) "A" "A" := by
  constructor
  · have hv : GraphPkg.validate gC2cex = none := by decide
    have hb : GraphPkg.bfs gC2cex ["A"] [] = true := by
      rw [GraphPkg.bfs_cons]
      rw [if_neg (by simp), if_neg (by decide), if_pos (by decide)]
      rw [show ([] : List String) ++ GraphPkg.succs gC2cex "A" = ["B"] from rfl]
      rw [GraphPkg.bfs_cons]
      rw [if_neg (by decide), if_pos (by decide)]
    have hr : GraphPkg.ensureReachable gC2cex = true := by
      unfold GraphPkg.ensureReachable
      rw [if_neg (by decide)]
      exact hb
    unfold GraphPkg.compile
    simp only [hv]
    rw [if_pos hr]
  · have hab : GraphPkg.EdgeRel gC2cex "A" "B" := by
      show ("A", "B") ∈ gC2cex.edges
      decide
    have hba : GraphPkg.EdgeRel gC2cex "B" "A" := by
      show ("B", "A") ∈ gC2cex.edges
      decide
    exact Relation.TransGen.tail (Relation.TransGen.single hab) hba

/-- C2 (amended): graph-package `Compile` succeeds exactly when no builder
error is latched, entry and finish are set and registered, every edge
endpoint is registered and the finish is reachable from the entry — with no
acyclicity requirement; the pointer-keyed flow `Compile` only ever succeeds
when its registration checks pass, and it rejects the default-edge cycle
1→2→1 with a cycle error. Failures return a classified error and no runner
(the `Except` result carries one or the other). -/
theorem c2_compile_characterization :
    (∀ (H : Type) (g : GraphPkg.Graph H),
      (∃ v, GraphPkg.compile g = .ok v) ↔
        (g.err = none ∧ g.entryPoint ≠ "" ∧ g.finishPoint ≠ "" ∧
         (g.nodes.lookup g.entryPoint).isSome = true ∧
         (g.nodes.lookup g.finishPoint).isSome = true ∧
         (∀ e ∈ g.edges, (g.nodes.lookup e.1).isSome = true ∧
           (g.nodes.lookup e.2).isSome = true) ∧
         GraphPkg.Reach g g.entryPoint g.finishPoint)) ∧
    (∀ (pg : FlowPtr.Graph) (u : Unit), FlowPtr.compile pg = .ok u →
      ((∃ s, pg.start = some s ∧ s ∈ pg.nodes) ∧
       (∀ e ∈ pg.edges, e.1 ∈ pg.nodes ∧ ∀ t, e.2 = some t → t ∈ pg.nodes) ∧
       (∀ b ∈ pg.branches, b.1 ∈ pg.nodes ∧ ∃ sp, b.2 = some sp ∧
         sp.fnDefined = true ∧ ∀ t ∈ sp.table, ∃ r, t.2 = some r ∧ r ∈ pg.nodes))) ∧
    FlowPtr.compile pgCycle = .error .cycleDetected :=
  ⟨fun _ g => GraphPkg.compile_ok_iff g,
   fun pg u h => FlowPtr.compile_ok_checks pg u h,
   rfl⟩

/-- C3: the merger-variant `Parallel.Run` allocates `outputs` with
`make([]O, 0, n)` — length zero — and every successful sibling then writes
`outputs[idx]`, an index-out-of-range panic; with one sibling succeeding with
42 the unit panics instead of returning `merge([42])`. -/
theorem c3_merger_run_panics :
    (∀ (v idx : Nat) (merger : List Nat → Except Err Nat),
      ParallelMerge.mergerRun [⟨idx, .ok v⟩] merger = .panicked) ∧
    ParallelMerge.mergerRun [⟨0, .ok 42⟩]
      (fun outs => .ok (outs.foldl (· + ·) 0)) = .panicked := by
  constructor
  · intro v idx merger
    unfold ParallelMerge.mergerRun
    simp [ParallelMerge.mergerLoop, ParallelMerge.goWrite]
  · rfl

/-- C4 counterexample: with completion order (sibling fails with "boom",
sibling succeeds with 5) the plain `flow.Parallel.Run` returns the partial
output 5 alongside the error — partial sibling outputs are surfaced. -/
theorem c4_partial_output_surfaced_cex :
    ParallelMerge.plainRun [(.error "boom" : Except Err Nat), .ok 5] =
      (some 5, some "boom") ∧
    some (5 : Nat) ≠ none := ⟨rfl, by decide⟩

/-- C4 (amended): over every completion order, `eg.Wait` surfaces exactly the
error of the earliest-completing failing sibling and the derived child
context is cancelled exactly when some sibling failed; but the plain flow
variant returns its closure-shared output variable alongside that error, so a
sibling success that completes last is surfaced even on failure. -/
theorem c4_first_error_wins_and_cancels :
    (∀ (O : Type) (cs : List (Except Err O)),
      (ParallelMerge.plainRun cs).2 = ParallelMerge.firstError cs ∧
      (ParallelMerge.egFold cs).canceled = cs.any ParallelMerge.isErr) ∧
    (∀ (O : Type) (cs : List (Except Err O)) (v : O),
      cs.getLast? = some (.ok v) → (ParallelMerge.plainRun cs).1 = some v) := by
  constructor
  · intro O cs
    exact ⟨ParallelMerge.egFold_firstErr cs, ParallelMerge.egFold_canceled cs⟩
  · intro O cs v h
    exact ParallelMerge.foldl_egStep_shared_last cs _ v h

/-- The always-true predicate of `loop.go` examples. -/
def alwaysTrueL : LoopNode.ShouldContinue := fun _ => .ok true

/-- A total wrapped runner. -/
def totalRunnerL (rf : LoopNode.FState → Gen) : LoopNode.Runner := fun s => .ok (rf s)

/-- A `flow.Loop` with an always-true predicate, total runner and
`maxIterations` k. -/
def kLoop (rf : LoopNode.FState → Gen) (k : Nat) : LoopNode.Loop :=
  LoopNode.withMaxIterations (LoopNode.newLoop alwaysTrueL (totalRunnerL rf)) k

/-- A `graph_node.go` loop node with always-true condition, total runner and
the default bound of 2. -/
def gLoopNode (rg : GNode.GState → Gen) : GNode.GraphNode :=
  .mk (.loop (fun _ => .ok true) (fun s => .ok (rg s)) 2) none

/-- C5: `flow.Loop`'s Run and RunStream both stop after exactly
`maxIterations` iterations under an always-true predicate, chaining each
iteration's output into the next input, and `NewLoop` defaults the bound to
2; but `GraphNode.RunStream`'s loop case (`graph_node.go` 158–174) has no
iteration check: with an always-true predicate it never terminates (its Run
stops after 2), violating the bound the claim asserts for RunStream. -/
theorem c5_loop_bound_and_stream_bug :
    (∀ (rf : LoopNode.FState → Gen) (k : Nat) (prompt : Prompt) (st : LoopNode.FState),
      LoopNode.run (kLoop rf k) prompt st =
        .ok (LoopNode.lastOr (LoopNode.chainTrace rf k { st with prompt := prompt }) none,
             LoopNode.iterState rf k { st with prompt := prompt },
             LoopNode.chainTrace rf k { st with prompt := prompt }) ∧
      (LoopNode.chainTrace rf k { st with prompt := prompt }).length = k ∧
      List.Chain' (fun a b : Prompt × Gen => b.1 = a.2)
        (LoopNode.chainTrace rf k { st with prompt := prompt }) ∧
      LoopNode.runStream (kLoop rf k) prompt st =
        .ok ((LoopNode.chainTrace rf k { st with prompt := prompt }).map (·.2),
             LoopNode.iterState rf k { st with prompt := prompt })) ∧
    (LoopNode.newLoop alwaysTrueL (totalRunnerL (fun s => s.prompt))).maxIterations = 2 ∧
    (∀ (rg : GNode.GState → Gen) (prompt : Prompt) (st : GNode.GState),
      GNode.run (gLoopNode rg) prompt st =
        .ok (GNode.lastOrG (GNode.iterOutputs rg 2 { st with prompt := prompt }) none,
             GNode.iterStateG rg 2 { st with prompt := prompt },
             GNode.iterOutputs rg 2 { st with prompt := prompt }) ∧
      (GNode.iterOutputs rg 2 { st with prompt := prompt }).length = 2) ∧
    (∀ (rg : GNode.GState → Gen) (fuel : Nat) (prompt : Prompt) (st : GNode.GState),
      GNode.runStream (gLoopNode rg) fuel prompt st = none) := by
  refine ⟨?_, rfl, ?_, ?_⟩
  · intro rf k prompt st
    have hgo := LoopNode.loopGo_alwaysTrue (kLoop rf k) rf rfl rfl k
      { st with prompt := prompt } none []
    refine ⟨?_, LoopNode.chainTrace_length rf k _, LoopNode.chainTrace_chain rf k _, ?_⟩
    · unfold LoopNode.run
      simp only [kLoop, LoopNode.withMaxIterations, LoopNode.newLoop] at hgo ⊢
      rw [hgo]
      simp
    · unfold LoopNode.runStream
      simp only [kLoop, LoopNode.withMaxIterations, LoopNode.newLoop] at hgo ⊢
      rw [hgo]
      simp
  · intro rg prompt st
    have hgo := GNode.loopRunGo_alwaysTrue rg 2 { st with prompt := prompt } none []
    constructor
    · have hrun : GNode.run (gLoopNode rg) prompt st =
          match GNode.loopRunGo (fun _ => .ok true) (fun s => .ok (rg s)) 2
            { st with prompt := prompt } none [] with
          | .error e => .error e
          | .ok (last, st1, trace) => .ok (last, st1, trace) := rfl
      rw [hrun, hgo]
      simp
    · exact GNode.iterOutputs_length rg 2 _
  · intro rg fuel prompt st
    simp only [GNode.runStream, gLoopNode]
    rw [GNode.loopStreamGo_alwaysTrue rg fuel _ []]

/-- A loop whose predicate is immediately false. -/
def c6Loop : LoopNode.Loop :=
  LoopNode.newLoop (fun _ => .ok false) (fun st => .ok st.prompt)

/-- C6 counterexample: with the predicate false before the first iteration,
`Loop.Run` executes the wrapped node zero times (empty trace) and returns a
**nil** generation (`none`) — not the original input passed through as a
non-nil output. -/
theorem c6_zero_iterations_nil_output :
    LoopNode.run c6Loop ["hello"] { prompt := [], history := [] } =
      .ok (none, { prompt := ["hello"], history := [] }, []) := rfl

/-- C6 (amended): a loop whose predicate is false before the first iteration
executes the wrapped node zero times; `Run` itself returns a nil generation,
while the state passes the original input prompt through unchanged to any
successor. -/
theorem c6_zero_iterations_passthrough_state (l : LoopNode.Loop) (prompt : Prompt)
    (st : LoopNode.FState) (hnext : l.next = none)
    (hfalse : l.shouldContinue { st with prompt := prompt } = .ok false) :
    LoopNode.run l prompt st = .ok (none, { st with prompt := prompt }, []) := by
  have hgo : LoopNode.loopGo l l.maxIterations { st with prompt := prompt } none [] =
      .ok (none, { st with prompt := prompt }, []) := by
    cases hk : l.maxIterations with
    | zero => rfl
    | succ n =>
      simp only [LoopNode.loopGo, hfalse]
  unfold LoopNode.run
  rw [hgo, hnext]

/-- A bound-5 instance of the immediately-false loop. -/
def c6LoopW : LoopNode.Loop :=
  LoopNode.withMaxIterations (LoopNode.newLoop (fun _ => .ok false) (fun st => .ok st.prompt)) 5

theorem c6_zero_iterations_passthrough_state_w :
    LoopNode.run c6LoopW ["w"] { prompt := [], history := [] } =
      .ok (none, { prompt := ["w"], history := [] }, []) :=
  c6_zero_iterations_passthrough_state c6LoopW ["w"] { prompt := [], history := [] } rfl rfl

theorem runStreamGo_total {I O : Type} (input : I) :
    ∀ (rs : List (String × (I → O))),
      BranchGen.runStreamGo (rs.map (fun p => (p.1, fun i => .ok (p.2 i)))) input =
        (rs.map (fun p => p.2 input), none, rs.map (·.1)) := by
  intro rs
  induction rs with
  | nil => rfl
  | cons p rest ih =>
    simp only [List.map_cons, BranchGen.runStreamGo]
    rw [ih]

/-- The concrete branch of the spec's scenario: selector always "left",
candidates left (×2) and right (+100). -/
def c7Branch : BranchGen.Branch Nat Nat :=
  { name := "X", selector := fun _ => .ok "left",
    runners := [("left", fun n => .ok (2 * n)), ("right", fun n => .ok (n + 100))] }

/-- C7: `Branch.Run` consults the selector and runs exactly the chosen
candidate (erroring with the offending label when absent, no candidate run),
but `Branch.RunStream` never consults the selector and runs **every**
candidate, emitting one item per candidate — branches multicast on the
stream path. In the spec's scenario (selector "left", input 5) Run yields 10
having executed only "left", while RunStream emits [10, 105] having executed
both candidates. -/
theorem c7_branch_run_single_stream_multicast :
    (∀ (I O : Type) (b : BranchGen.Branch I O) (input : I) (label : String),
      b.selector input = .ok label →
      (∀ r, b.runners.lookup label = some r →
        BranchGen.run b input = (r input, [label])) ∧
      (b.runners.lookup label = none →
        BranchGen.run b input = (.error ("Branch: runner not found: " ++ label), []))) ∧
    (∀ (I O : Type) (name : String) (sel : I → Except Err String)
       (rs : List (String × (I → O))) (input : I),
      BranchGen.runStream
        { name := name, selector := sel,
          runners := rs.map (fun p => (p.1, fun i => .ok (p.2 i))) } input =
        (rs.map (fun p => p.2 input), none, rs.map (·.1))) ∧
    (BranchGen.run c7Branch 5 = (.ok 10, ["left"]) ∧
     BranchGen.runStream c7Branch 5 = ([10, 105], none, ["left", "right"])) := by
  refine ⟨?_, ?_, rfl, rfl⟩
  · intro I O b input label hsel
    constructor
    · intro r hr
      unfold BranchGen.run
      simp only [hsel, hr]
    · intro hr
      unfold BranchGen.run
      simp only [hsel, hr]
  · intro I O name sel rs input
    unfold BranchGen.runStream
    exact runStreamGo_total input rs

/-- C8 counterexample: the generic flow `AddNode` silently replaces a prior
registration under the same name — after registering 1 then 2 under "A" the
lookup yields 2, and no error is reported (the builder has no error channel
at all). -/
theorem c8_overwrite_cex :
    ((FlowGen.addNode (FlowGen.addNode (FlowGen.newGraph Nat Unit) "A" 1) "A" 2).nodes.lookup
      "A") = some 2 ∧ some (2 : Nat) ≠ some 1 := ⟨rfl, by decide⟩

/-- C8 (amended): the graph-package `AddNode` rejects a taken name with a
duplicate-node error and leaves the registered nodes unchanged, while the
generic flow `AddNode` is a plain map assignment whose new runner always wins
the lookup and which reports no error. -/
theorem c8_addNode_duplicate_vs_overwrite :
    (∀ (H : Type) (g : GraphPkg.Graph H) (name : String) (h0 h1 : H),
      g.err = none → g.nodes.lookup name = some h0 →
      (GraphPkg.addNode g name h1).err = some (.duplicateNode name) ∧
      (GraphPkg.addNode g name h1).nodes = g.nodes) ∧
    (∀ (R E : Type) (g : FlowGen.Graph R E) (name : String) (r : R),
      (FlowGen.addNode g name r).nodes.lookup name = some r) := by
  constructor
  · intro H g name h0 h1 herr hdup
    have hs : g.err.isSome = false := by rw [herr]; rfl
    unfold GraphPkg.addNode
    rw [if_neg (by simp [hs]), if_pos (by rw [hdup]; rfl)]
    exact ⟨rfl, rfl⟩
  · intro R E g name r
    exact FlowGen.lookup_assocSet g.nodes name r

/-- A concrete graph-package graph with "A" registered and no error. -/
def gC8 : GraphPkg.Graph Nat := GraphPkg.addNode (GraphPkg.newGraph Nat) "A" 1

theorem c8_addNode_duplicate_vs_overwrite_w :
    ((GraphPkg.addNode gC8 "A" 2).err = some (.duplicateNode "A") ∧
     (GraphPkg.addNode gC8 "A" 2).nodes = gC8.nodes) ∧
    (FlowGen.addNode (FlowGen.newGraph Nat Unit) "B" 5).nodes.lookup "B" = some 5 :=
  ⟨c8_addNode_duplicate_vs_overwrite.1 Nat gC8 "A" 1 2 rfl rfl,
   c8_addNode_duplicate_vs_overwrite.2 Nat Unit (FlowGen.newGraph Nat Unit) "B" 5⟩

/-- C9: once a builder call has latched an error in the graph-package
builder, every later AddNode/AddEdge/SetEntryPoint/SetFinishPoint call
returns the graph unchanged (nodes, edges, entry and finish included) and
Compile returns that first latched error rather than an executor. -/
theorem c9_builder_error_latch {H : Type} (g : GraphPkg.Graph H) (e : GraphPkg.GErr)
    (h : g.err = some e) (name : String) (handler : H) (src dst entry stop : String) :
    GraphPkg.addNode g name handler = g ∧
    GraphPkg.addEdge g src dst = g ∧
    GraphPkg.setEntryPoint g entry = g ∧
    GraphPkg.setFinishPoint g stop = g ∧
    GraphPkg.compile g = .error e := by
  have hs : g.err.isSome = true := by rw [h]; rfl
  refine ⟨?_, ?_, ?_, ?_, ?_⟩
  · unfold GraphPkg.addNode; rw [if_pos hs]
  · unfold GraphPkg.addEdge; rw [if_pos hs]
  · unfold GraphPkg.setEntryPoint; rw [if_pos hs]
  · unfold GraphPkg.setFinishPoint; rw [if_pos hs]
  · unfold GraphPkg.compile GraphPkg.validate
    rw [h]

/-- A builder state with a latched duplicate-node error. -/
def gC9 : GraphPkg.Graph Nat :=
  { nodes := [("A", 1)], edges := [], entryPoint := "", finishPoint := "",
    err := some (.duplicateNode "A") }

theorem c9_builder_error_latch_w :
    GraphPkg.addNode gC9 "B" 2 = gC9 ∧
    GraphPkg.addEdge gC9 "A" "B" = gC9 ∧
    GraphPkg.setEntryPoint gC9 "A" = gC9 ∧
    GraphPkg.setFinishPoint gC9 "B" = gC9 ∧
    GraphPkg.compile gC9 = .error (.duplicateNode "A") :=
  c9_builder_error_latch gC9 (.duplicateNode "A") rfl "B" 2 "A" "B" "A" "B"

/-- C10: in the string-keyed flow graph both Run and RunStream (whose
producer loop is the same traversal) execute each registered node at most
once — the executed-name trace has no duplicates and lies inside the
registered names, so its length is bounded by the number of registered nodes
even when the edge table is cyclic — and reaching an already-visited node
aborts with a cycle error naming that node. -/
theorem c10_each_node_at_most_once (g : StrGraph.Graph) (prompt : Prompt) :
    ((StrGraph.run g prompt).2.map (·.1)).Nodup ∧
    (∀ x ∈ (StrGraph.run g prompt).2.map (·.1), x ∈ StrGraph.names g) ∧
    (StrGraph.run g prompt).2.length ≤ (StrGraph.names g).length ∧
    (StrGraph.runStream g prompt).1.length ≤ (StrGraph.names g).length ∧
    (∀ (st : StrGraph.State) (visited : List String) (current : String),
      current ∈ visited →
      StrGraph.runLoop g st visited current =
        (.error ("cycle detected at node " ++ current ++ ": graph is not a DAG"), [])) := by
  have h := StrGraph.run_trace_bound g prompt
  refine ⟨h.1, h.2.1, h.2.2, ?_, ?_⟩
  · unfold StrGraph.runStream
    split
    · simp
    · rename_i start hf
      split
      · simp
      · have h2 := StrGraph.runLoop_trace g
          { current := "", prompt := prompt, history := [] } [] start
        have hlen := StrGraph.nodup_subset_length h2.2 (fun x hx => (h2.1 x hx).1)
        simpa using hlen
  · intro st visited current hmem
    rw [StrGraph.runLoop, dif_pos hmem]
